import Mathlib

/-!
Verification of the LispInRust interpreter (`src/main.rs`).

The interpreter core is embedded shallowly:

* `LispExpression` and `LispValue` mirror the two Rust enums; `Box` is dropped
  and `Environment` (a `HashMap<String, LispValue>`) is modelled extensionally
  as an association list where `envSet` prepends a binding and `envGet` returns
  the most recent one, which matches `HashMap::insert` / `HashMap::get` on the
  observable map.
* Rust numbers are `f64`; the language has no arithmetic, so the development is
  parametric in a number type `F` and in the partial parsing function
  `pf : String → Option F` standing for `str::parse::<f64>`.
* `&mut Environment` becomes explicit state passing: `eval` returns the result
  together with the environment as it stands afterwards, including on the error
  path (mirroring that a `?`-propagated error leaves the map as mutated so far).
* The `println!` diagnostics in `apply` are side effects outside the value
  semantics and are not modelled.
-/

inductive LispExpression (F : Type) where
  | Number : F → LispExpression F
  | Boolean : Bool → LispExpression F
  | Symbol : String → LispExpression F
  | List : List (LispExpression F) → LispExpression F
  | Lambda : List String → LispExpression F → LispExpression F
deriving Repr

inductive LispValue (F : Type) where
  | Number : F → LispValue F
  | Boolean : Bool → LispValue F
  | Lambda : List String → LispExpression F → List (String × LispValue F) → LispValue F
deriving Repr

/-- The Rust `Environment` struct wraps a `HashMap<String, LispValue>`; it is
modelled as an association list, newest binding first. -/
abbrev Environment (F : Type) := List (String × LispValue F)

/-- `Environment::get`: lookup of the current (most recent) binding of a key. -/
def envGet {F : Type} : Environment F → String → Option (LispValue F)
  | [], _ => none
  | (k, v) :: rest, key => if k = key then some v else envGet rest key

/-- `Environment::set` (`HashMap::insert`): rebinding shadows, so on the
observable map prepending is insertion. -/
def envSet {F : Type} (env : Environment F) (key : String) (v : LispValue F) :
    Environment F :=
  (key, v) :: env

/-- The parameter-collecting loop in the `lambda` branch of `eval`
(`src/main.rs` lines 77-84): push each bare symbol name left to right, fail at
the first non-symbol parameter. -/
def collectParams {F : Type} : List (LispExpression F) → Except String (List String)
  | [] => .ok []
  | .Symbol name :: rest =>
    match collectParams rest with
    | .ok names => .ok (name :: names)
    | .error e => .error e
  | _ :: _ => .error "Invalid parameter name in lambda"

/-- `eval` (`src/main.rs` lines 45-100).  The Rust signature
`fn eval(expr: &LispExpression, env: &mut Environment) -> Result<LispValue, String>`
becomes a function returning the result paired with the final environment. -/
def eval {F : Type} : LispExpression F → Environment F →
    Except String (LispValue F) × Environment F
  | .Number num, env => (.ok (.Number num), env)
  | .Boolean b, env => (.ok (.Boolean b), env)
  | .Symbol sym, env =>
    match envGet env sym with
    | some value => (.ok value, env)
    | none => (.error ("Undefined symbol: " ++ sym), env)
  | .List [], env => (.error "Empty list", env)
  | .List (head :: tail), env =>
    match head with
    | .Symbol s =>
      if s = "define" then
        -- `list.len() != 3` is checked before `list[1]` is inspected
        match tail with
        | [nameExpr, valueExpr] =>
          match nameExpr with
          | .Symbol name =>
            match eval valueExpr env with
            | (.ok value, env1) => (.ok value, envSet env1 name value)
            | (.error e, env1) => (.error e, env1)
          | _ => (.error "Invalid variable name in define", env)
        | _ => (.error "Invalid define expression", env)
      else if s = "lambda" then
        match tail with
        | [paramsExpr, bodyExpr] =>
          match paramsExpr with
          | .List params =>
            match collectParams params with
            | .ok paramNames => (.ok (.Lambda paramNames bodyExpr env), env)
            | .error e => (.error e, env)
          | _ => (.error "Invalid parameter list in lambda", env)
        | _ => (.error "Invalid lambda expression", env)
      else (.error "Invalid expression", env)
    | _ => (.error "Invalid expression", env)
  | .Lambda _ _, env => (.error "Lambda cannot be evaluated directly", env)

/-- The argument-binding loop of `apply` (`src/main.rs` lines 108-122): for each
parameter/argument pair, evaluate the argument in the caller environment
(threaded, since `eval` takes `&mut env`) and bind the result in `new_env`.
The parameters produced by `lambda` are bare symbol-name strings, so the
binding branch of the loop is the one taken; the diagnostic `println!` calls
are not part of the value semantics. -/
def applyLoop {F : Type} : List String → List (LispExpression F) →
    Environment F → Environment F →
    Except String Unit × Environment F × Environment F
  | [], _, env, newEnv => (.ok (), env, newEnv)
  | _ :: _, [], env, newEnv => (.ok (), env, newEnv)
  | param :: params, arg :: args, env, newEnv =>
    match eval arg env with
    | (.ok value, env1) => applyLoop params args env1 (envSet newEnv param value)
    | (.error e, env1) => (.error e, env1, newEnv)

/-- `apply` (`src/main.rs` lines 101-127): fails on non-closures and on arity
mismatch; otherwise copies the captured environment, binds evaluated arguments,
evaluates the body in the new environment and discards that environment. -/
def apply {F : Type} (func : LispValue F) (args : List (LispExpression F))
    (env : Environment F) : Except String (LispValue F) × Environment F :=
  match func with
  | .Lambda params body closure =>
    if args.length ≠ params.length then
      (.error "Incorrect number of arguments", env)
    else
      match applyLoop params args env closure with
      | (.ok _, env1, newEnv) => ((eval body newEnv).1, env1)
      | (.error e, env1, _) => (.error e, env1)
  | _ => (.error "Invalid function application", env)

/-- Classification of a single non-parenthesis token (`src/main.rs` lines
143-151).  In `parse_tokens` this code sits after the `"("` and `")"` cases;
in `parse_list` the same path is reached by calling `parse_tokens` on a
one-token iterator holding a non-parenthesis token. -/
def parseAtom {F : Type} (pf : String → Option F) (token : String) :
    LispExpression F :=
  if token = "true" then .Boolean true
  else if token = "false" then .Boolean false
  else
    match pf token with
    | some num => .Number num
    | none => .Symbol token

/-- `parse_list` (`src/main.rs` lines 155-176).  The token iterator becomes a
token list; the returned subtype records that the unconsumed suffix is strictly
shorter, which is what makes the recursion terminate. -/
def parseListAux {F : Type} (pf : String → Option F) :
    (toks : List String) →
    Except String (List (LispExpression F) × { rest : List String // rest.length < toks.length })
  | [] => .error "Unexpected end of input inside list"
  | token :: rest =>
    if token = "(" then
      match parseListAux pf rest with
      | .error e => .error e
      | .ok (sub, ⟨rest1, h1⟩) =>
        match parseListAux pf rest1 with
        | .error e => .error e
        | .ok (l, ⟨rest2, h2⟩) =>
          .ok (.List sub :: l, ⟨rest2, by simp only [List.length_cons]; omega⟩)
    else if token = ")" then
      .ok ([], ⟨rest, by simp⟩)
    else
      match parseListAux pf rest with
      | .error e => .error e
      | .ok (l, ⟨rest1, h1⟩) =>
        .ok (parseAtom pf token :: l, ⟨rest1, by simp only [List.length_cons]; omega⟩)
  termination_by toks => toks.length
  decreasing_by
    · simp only [List.length_cons]; omega
    · simp only [List.length_cons]; omega
    · simp only [List.length_cons]; omega

/-- `parse_list` with the termination evidence erased. -/
def parseList {F : Type} (pf : String → Option F) (toks : List String) :
    Except String (List (LispExpression F) × List String) :=
  match parseListAux pf toks with
  | .error e => .error e
  | .ok (l, ⟨rest, _⟩) => .ok (l, rest)

/-- `parse_tokens` (`src/main.rs` lines 134-153), returning the parsed
expression together with the unconsumed suffix of the token list. -/
def parseTokens {F : Type} (pf : String → Option F) (toks : List String) :
    Except String (LispExpression F × List String) :=
  match toks with
  | [] => .error "Unexpected end of input"
  | token :: rest =>
    if token = "(" then
      match parseList pf rest with
      | .error e => .error e
      | .ok (l, rest1) => .ok (.List l, rest1)
    else if token = ")" then .error "Unexpected \x27)\x27"
    else .ok (parseAtom pf token, rest)

/-- `parse` (`src/main.rs` lines 129-132): parse one expression from the token
stream; unconsumed trailing tokens are dropped. -/
def parse {F : Type} (pf : String → Option F) (toks : List String) :
    Except String (LispExpression F) :=
  match parseTokens pf toks with
  | .error e => .error e
  | .ok (expr, _) => .ok expr

/-- Helper for `tokenize`: walk the characters keeping the reversed current
word, emitting a token at each whitespace boundary. -/
def tokenizeAux : List Char → List Char → List String
  | [], [] => []
  | [], acc => [String.mk acc.reverse]
  | c :: cs, acc =>
    if c.isWhitespace then
      match acc with
      | [] => tokenizeAux cs []
      | _ :: _ => String.mk acc.reverse :: tokenizeAux cs []
    else tokenizeAux cs (c :: acc)

/-- The tokenizer used by `main` (`src/main.rs` line 193):
`split_whitespace` splits on whitespace runs and keeps the non-empty pieces. -/
def tokenize (s : String) : List String := tokenizeAux s.toList []

/-- A concrete instantiation of the number parser used by witnesses: numbers
are integers and only a few literals are recognised. -/
def pfTest : String → Option Int := fun s =>
  if s = "5" then some 5 else if s = "7" then some 7 else none

/-- Specification-side notion of parenthesis matching: `skipClose d toks` is
the token suffix right after the `")"` that closes the currently open list,
where `d` counts additionally opened lists that must close first; `none` means
that closing token never arrives before the tokens end. -/
def skipClose : Nat → List String → Option (List String)
  | _, [] => none
  | d, t :: rest =>
    if t = "(" then skipClose (d + 1) rest
    else if t = ")" then
      match d with
      | 0 => some rest
      | d1 + 1 => skipClose d1 rest
    else skipClose d rest

/-- No `Lambda` constructor occurs anywhere in the expression tree. -/
def noLambda {F : Type} : LispExpression F → Bool
  | .Number _ => true
  | .Boolean _ => true
  | .Symbol _ => true
  | .List [] => true
  | .List (e :: es) => noLambda e && noLambda (.List es)
  | .Lambda _ _ => false

/-- Modelled from the spec wording of the applier (§4.4): evaluate each
argument expression in the caller environment, left to right, threading the
caller environment through. -/
def evalArgs {F : Type} : List (LispExpression F) → Environment F →
    Except String (List (LispValue F)) × Environment F
  | [], env => (.ok [], env)
  | a :: args, env =>
    match eval a env with
    | (.ok v, env1) =>
      match evalArgs args env1 with
      | (.ok vs, env2) => (.ok (v :: vs), env2)
      | (.error e, env2) => (.error e, env2)
    | (.error e, env1) => (.error e, env1)

/-- Modelled from the spec wording of the applier (§4.4): bind each value to
its corresponding parameter name positionally, left to right, on top of the
closure snapshot. -/
def bindParams {F : Type} : Environment F → List String → List (LispValue F) →
    Environment F
  | base, p :: ps, v :: vs => bindParams (envSet base p v) ps vs
  | base, _, _ => base

example : tokenize "( define x 5 )" = ["(", "define", "x", "5", ")"] := by decide
example : parse pfTest ["(", "define", "x", "5", ")"] =
    .ok (.List [.Symbol "define", .Symbol "x", .Number 5]) := by
  simp [parse, parseTokens, parseList, parseListAux, parseAtom, pfTest]
example : parse pfTest ["(", "a", "b"] =
    .error "Unexpected end of input inside list" := by
  simp [parse, parseTokens, parseList, parseListAux, parseAtom, pfTest]
example : parse pfTest [")"] =
    (.error "Unexpected \x27)\x27" : Except String (LispExpression Int)) := by rfl
example :
    eval (F := Int) (.List [.Symbol "define", .Symbol "x", .Number 5]) [] =
    (.ok (.Number 5), [("x", .Number 5)]) := by rfl

theorem envGet_envSet_self {F : Type} (env : Environment F) (k : String)
    (v : LispValue F) : envGet (envSet env k v) k = some v := by
  simp [envGet, envSet]

theorem eval_define_ok {F : Type} (name : String) (valueExpr : LispExpression F)
    (env env1 : Environment F) (v : LispValue F)
    (h : eval valueExpr env = (.ok v, env1)) :
    eval (.List [.Symbol "define", .Symbol name, valueExpr]) env =
      (.ok v, envSet env1 name v) := by
  simp [eval, h]

/-- Claim C9: evaluating the empty list `()` fails with `EmptyList`, evaluating
an unbound symbol `y` fails with `UndefinedSymbol(y)`, and a bound symbol
evaluates to its bound value. -/
theorem claim_C9_empty_list_and_symbol_lookup {F : Type} (env : Environment F)
    (y : String) (v : LispValue F) :
    eval (F := F) (.List []) env = (.error "Empty list", env) ∧
    (envGet env y = none →
      eval (.Symbol y) env = (.error ("Undefined symbol: " ++ y), env)) ∧
    (envGet env y = some v → eval (.Symbol y) env = (.ok v, env)) := by
  refine ⟨rfl, ?_, ?_⟩ <;> intro h <;> simp [eval, h]

theorem claim_C9_witness :
    eval (F := Int) (.List []) [] = (.error "Empty list", []) ∧
    eval (F := Int) (.Symbol "y") [] = (.error ("Undefined symbol: " ++ "y"), []) ∧
    eval (F := Int) (.Symbol "y") [("y", .Number 5)] =
      (.ok (.Number 5), [("y", .Number 5)]) :=
  ⟨(claim_C9_empty_list_and_symbol_lookup [] "y" (.Number 5)).1,
   (claim_C9_empty_list_and_symbol_lookup [] "y" (.Number 5)).2.1 rfl,
   (claim_C9_empty_list_and_symbol_lookup [("y", .Number 5)] "y" (.Number 5)).2.2 rfl⟩

/-- Claim C4: a non-empty list whose head is neither the symbol `define` nor
the symbol `lambda` (in particular every ordinary application form) evaluates
to the `InvalidExpression` error; `eval` is defined without any reference to
`apply`, so closure invocation is unreachable through `eval`. -/
theorem claim_C4_non_special_head_is_invalid {F : Type} (head : LispExpression F)
    (tail : List (LispExpression F)) (env : Environment F)
    (hd : head ≠ .Symbol "define") (hl : head ≠ .Symbol "lambda") :
    eval (.List (head :: tail)) env = (.error "Invalid expression", env) := by
  cases head with
  | Symbol s =>
    have h1 : ¬s = "define" := fun h => hd (by rw [h])
    have h2 : ¬s = "lambda" := fun h => hl (by rw [h])
    rw [eval.eq_def]
    simp [h1, h2]
  | Number num => rfl
  | Boolean b => rfl
  | List l => rfl
  | Lambda ps b => rfl

theorem claim_C4_witness :
    eval (F := Int) (.List [.Symbol "f", .Number 5]) [] =
      (.error "Invalid expression", []) :=
  claim_C4_non_special_head_is_invalid (.Symbol "f") [.Number 5] []
    (by simp) (by simp)

/-- Claim C1: with a number parser that reads `"5"` as a number and reads
neither `"define"` nor `"x"` as one (as `str::parse::<f64>` does), parsing
`"( define x 5 )"` and evaluating the result in any environment binds `x` to
`Number 5` in the environment and returns `Number 5`, and evaluating the
symbol `x` in the resulting environment returns `Number 5` again; in general a
define list with exactly 3 elements whose second element is a symbol evaluates
the third element in the current environment, binds the name to the result in
the mutated environment, and returns that result. -/
theorem claim_C1_define_binds {F : Type} (pf : String → Option F) (five : F)
    (h5 : pf "5" = some five) (hdef : pf "define" = none) (hx : pf "x" = none) :
    (∀ env : Environment F,
      parse pf (tokenize "( define x 5 )") =
        .ok (.List [.Symbol "define", .Symbol "x", .Number five]) ∧
      eval (.List [.Symbol "define", .Symbol "x", .Number five]) env =
        (.ok (.Number five), envSet env "x" (.Number five)) ∧
      eval (.Symbol "x") (envSet env "x" (.Number five)) =
        (.ok (.Number five), envSet env "x" (.Number five))) ∧
    (∀ (name : String) (valueExpr : LispExpression F) (env env1 : Environment F)
      (v : LispValue F),
      eval valueExpr env = (.ok v, env1) →
      eval (.List [.Symbol "define", .Symbol name, valueExpr]) env =
        (.ok v, envSet env1 name v)) := by
  constructor
  · intro env
    have htok : tokenize "( define x 5 )" = ["(", "define", "x", "5", ")"] := by
      decide
    refine ⟨?_, ?_, ?_⟩
    · rw [htok]
      simp [parse, parseTokens, parseList, parseListAux, parseAtom, h5, hdef, hx]
    · exact eval_define_ok "x" (.Number five) env env (.Number five) rfl
    · simp [eval, envGet_envSet_self]
  · intro name valueExpr env env1 v h
    exact eval_define_ok name valueExpr env env1 v h

theorem claim_C1_witness :
    (parse pfTest (tokenize "( define x 5 )") =
        .ok (.List [.Symbol "define", .Symbol "x", .Number 5]) ∧
      eval (.List [.Symbol "define", .Symbol "x", .Number (5 : Int)]) [] =
        (.ok (.Number 5), envSet [] "x" (.Number 5)) ∧
      eval (.Symbol "x") (envSet [] "x" (.Number (5 : Int))) =
        (.ok (.Number 5), envSet [] "x" (.Number 5))) ∧
    eval (.List [.Symbol "define", .Symbol "y", .Number (7 : Int)]) [] =
      (.ok (.Number 7), envSet [] "y" (.Number 7)) := by
  have h := claim_C1_define_binds pfTest 5 (by rfl) (by rfl) (by rfl)
  exact ⟨h.1 [], h.2 "y" (.Number 7) [] [] (.Number 7) rfl⟩

theorem collectParams_map_symbol {F : Type} (names : List String) :
    collectParams (F := F) (names.map .Symbol) = .ok names := by
  induction names with
  | nil => rfl
  | cons n ns ih => simp [collectParams, ih]

theorem collectParams_error_of_nonsymbol {F : Type} (params : List (LispExpression F))
    (h : ∃ p ∈ params, ∀ s, p ≠ .Symbol s) :
    collectParams params = .error "Invalid parameter name in lambda" := by
  induction params with
  | nil => simp at h
  | cons p ps ih =>
    obtain ⟨q, hq, hns⟩ := h
    cases p with
    | Symbol s =>
      rcases List.mem_cons.mp hq with h1 | h1
      · exact absurd h1 (by subst h1; exact (hns s rfl).elim)
      · simp [collectParams, ih ⟨q, h1, hns⟩]
    | Number num => rfl
    | Boolean b => rfl
    | List l => rfl
    | Lambda a b => rfl

theorem eval_lambda_ok {F : Type} (params : List (LispExpression F))
    (names : List String) (body : LispExpression F) (env : Environment F)
    (h : collectParams params = .ok names) :
    eval (.List [.Symbol "lambda", .List params, body]) env =
      (.ok (.Lambda names body env), env) := by
  rw [eval.eq_def]
  simp [h]

/-- Evaluation that fails leaves the environment exactly as it was: every
error branch of `eval` returns before any `Environment::set`, and the only
mutating branch (`define`) mutates after its value expression has succeeded. -/
theorem eval_error_env {F : Type} (e : LispExpression F) (env : Environment F) :
    ∀ (msg : String) (env2 : Environment F),
      eval e env = (.error msg, env2) → env2 = env := by
  induction e, env using eval.induct <;> intro msg env2 h <;>
    rw [eval.eq_def] at h <;> simp_all

/-- Claim C2: a well-formed lambda form evaluates to a closure whose captured
environment is the evaluating environment as of that moment, with the
evaluating environment unchanged; a mutation performed afterwards (an
`Environment::set`, as a later `define` would do) changes the lookup in the
global environment but every lookup in the closure's captured environment
still gives the capture-time answer. -/
theorem claim_C2_lambda_captures_snapshot {F : Type}
    (params : List (LispExpression F)) (names : List String)
    (body : LispExpression F) (env : Environment F)
    (h : collectParams params = .ok names) :
    eval (.List [.Symbol "lambda", .List params, body]) env =
      (.ok (.Lambda names body env), env) ∧
    (∀ (k : String) (v : LispValue F),
      envGet (envSet env k v) k = some v ∧
      ∀ (names1 : List String) (body1 : LispExpression F) (cap : Environment F),
        (eval (.List [.Symbol "lambda", .List params, body]) env).1 =
          .ok (.Lambda names1 body1 cap) →
        ∀ s, envGet cap s = envGet env s) := by
  have h1 := eval_lambda_ok params names body env h
  refine ⟨h1, fun k v => ⟨envGet_envSet_self env k v, ?_⟩⟩
  intro names1 body1 cap hc s
  rw [h1] at hc
  cases hc
  rfl

theorem claim_C2_witness :
    eval (.List [.Symbol "lambda", .List [.Symbol "x"], .Symbol "x"])
        ([("a", LispValue.Number (1 : Int))] : Environment Int) =
      (.ok (.Lambda ["x"] (.Symbol "x") [("a", .Number 1)]), [("a", .Number 1)]) ∧
    envGet (envSet ([("a", LispValue.Number (1 : Int))] : Environment Int)
        "a" (.Number 2)) "a" = some (.Number 2) := by
  have h := claim_C2_lambda_captures_snapshot [.Symbol "x"] ["x"] (.Symbol "x")
    ([("a", LispValue.Number (1 : Int))] : Environment Int) (by rfl)
  exact ⟨h.1, (h.2 "a" (.Number 2)).1⟩

/-- Claim C3: a `lambda` list with other than 3 elements fails with the
`InvalidLambda` arity message; 3 elements with a non-list parameter position
fail with the `InvalidLambda` parameter-list message; any non-symbol among the
parameters fails with `InvalidLambdaParam`; otherwise the result is a closure
carrying the parameter names, the unevaluated body expression, and the current
environment. -/
theorem claim_C3_lambda_validation {F : Type} :
    (∀ (tail : List (LispExpression F)) (env : Environment F),
      tail.length ≠ 2 →
      eval (.List (.Symbol "lambda" :: tail)) env =
        (.error "Invalid lambda expression", env)) ∧
    (∀ (paramsExpr body : LispExpression F) (env : Environment F),
      (∀ l, paramsExpr ≠ .List l) →
      eval (.List [.Symbol "lambda", paramsExpr, body]) env =
        (.error "Invalid parameter list in lambda", env)) ∧
    (∀ (params : List (LispExpression F)) (body : LispExpression F)
      (env : Environment F),
      (∃ p ∈ params, ∀ s, p ≠ .Symbol s) →
      eval (.List [.Symbol "lambda", .List params, body]) env =
        (.error "Invalid parameter name in lambda", env)) ∧
    (∀ (names : List String) (body : LispExpression F) (env : Environment F),
      eval (.List [.Symbol "lambda", .List (names.map .Symbol), body]) env =
        (.ok (.Lambda names body env), env)) := by
  refine ⟨?_, ?_, ?_, ?_⟩
  · intro tail env hlen
    rcases tail with _ | ⟨a, _ | ⟨b, _ | ⟨c, t⟩⟩⟩
    · rfl
    · rfl
    · exact absurd rfl hlen
    · rfl
  · intro paramsExpr body env hnl
    cases paramsExpr with
    | List l => exact absurd rfl (hnl l)
    | Number num => rfl
    | Boolean b => rfl
    | Symbol s => rw [eval.eq_def]; simp
    | Lambda a b => rfl
  · intro params body env hex
    rw [eval.eq_def]
    simp [collectParams_error_of_nonsymbol params hex]
  · intro names body env
    exact eval_lambda_ok _ names body env (collectParams_map_symbol names)

theorem claim_C3_witness :
    eval (F := Int) (.List [.Symbol "lambda", .List [.Symbol "x"]]) [] =
      (.error "Invalid lambda expression", []) ∧
    eval (F := Int) (.List [.Symbol "lambda", .Symbol "x", .Symbol "x"]) [] =
      (.error "Invalid parameter list in lambda", []) ∧
    eval (F := Int) (.List [.Symbol "lambda", .List [.Number 5], .Symbol "x"]) [] =
      (.error "Invalid parameter name in lambda", []) ∧
    eval (F := Int) (.List [.Symbol "lambda", .List [.Symbol "x"], .Symbol "x"]) [] =
      (.ok (.Lambda ["x"] (.Symbol "x") []), []) := by
  obtain ⟨h1, h2, h3, h4⟩ := claim_C3_lambda_validation (F := Int)
  refine ⟨h1 [.List [.Symbol "x"]] [] (by decide), h2 (.Symbol "x") (.Symbol "x") []
    (fun l => by simp), h3 [.Number 5] (.Symbol "x") [] ?_, h4 ["x"] (.Symbol "x") []⟩
  exact ⟨.Number 5, by simp, fun s => by simp⟩

/-- Claim C7: a define form that fails to evaluate (wrong arity, non-symbol
name position, or a failing value expression) leaves the environment exactly
as it was: the name is bound only after the value expression succeeds. -/
theorem claim_C7_failed_define_no_mutation {F : Type}
    (tail : List (LispExpression F)) (env : Environment F) (msg : String)
    (env2 : Environment F)
    (h : eval (.List (.Symbol "define" :: tail)) env = (.error msg, env2)) :
    env2 = env :=
  eval_error_env _ env msg env2 h

theorem claim_C7_witness :
    eval (.List [.Symbol "define", .Symbol "x", .Symbol "nope"])
        ([("a", LispValue.Number (1 : Int))] : Environment Int) =
      (.error "Undefined symbol: nope", [("a", .Number 1)]) ∧
    ([("a", LispValue.Number (1 : Int))] : Environment Int) = [("a", .Number 1)] :=
  ⟨rfl, claim_C7_failed_define_no_mutation [.Symbol "x", .Symbol "nope"]
    [("a", .Number 1)] "Undefined symbol: nope" [("a", .Number 1)] rfl⟩

theorem skipClose_some_length : ∀ (toks : List String) (d : Nat) (r : List String),
    skipClose d toks = some r → r.length < toks.length := by
  intro toks
  induction toks with
  | nil => intro d r h; simp [skipClose] at h
  | cons t rest ih =>
    intro d r h
    rw [skipClose.eq_def] at h
    by_cases h1 : t = "("
    · simp [h1] at h
      have := ih _ _ h
      simp
      omega
    · by_cases h2 : t = ")"
      · simp [h1, h2] at h
        cases d with
        | zero =>
          simp at h
          subst h
          simp
        | succ d1 =>
          simp at h
          have := ih _ _ h
          simp
          omega
      · simp [h1, h2] at h
        have := ih _ _ h
        simp
        omega

theorem skipClose_cons_open (d : Nat) (rest : List String) :
    skipClose d ("(" :: rest) = skipClose (d + 1) rest := by
  rw [skipClose.eq_def]
  simp

theorem skipClose_cons_other (d : Nat) (t : String) (rest : List String)
    (h1 : t ≠ "(") (h2 : t ≠ ")") :
    skipClose d (t :: rest) = skipClose d rest := by
  rw [skipClose.eq_def]
  simp [h1, h2]

theorem skipClose_succ : ∀ (n : Nat) (toks : List String), toks.length ≤ n →
    ∀ (d : Nat),
    skipClose (d + 1) toks =
      match skipClose 0 toks with
      | some r => skipClose d r
      | none => none := by
  intro n
  induction n with
  | zero =>
    intro toks h d
    have he : toks = [] := by
      cases toks with
      | nil => rfl
      | cons a b => simp at h
    subst he
    rfl
  | succ n ih =>
    intro toks hlen d
    cases toks with
    | nil => rfl
    | cons t rest =>
      have hr1 : rest.length ≤ n := by simp at hlen; omega
      by_cases h1 : t = "("
      · subst h1
        rw [skipClose_cons_open, skipClose_cons_open]
        rw [ih rest hr1 (d + 1)]
        have h0 : skipClose (0 + 1) rest =
            match skipClose 0 rest with
            | some r => skipClose 0 r
            | none => none := ih rest hr1 0
        rw [h0]
        cases hsc : skipClose 0 rest with
        | none => rfl
        | some r =>
          have hr : r.length ≤ n := by
            have := skipClose_some_length rest 0 r hsc
            omega
          show skipClose (d + 1) r = match skipClose 0 r with
            | some r2 => skipClose d r2
            | none => none
          exact ih r hr d
      · by_cases h2 : t = ")"
        · subst h2
          rfl
        · rw [skipClose_cons_other (d + 1) t rest h1 h2,
            skipClose_cons_other 0 t rest h1 h2]
          exact ih rest hr1 d


theorem skipClose_one (rest : List String) :
    skipClose 1 rest =
      match skipClose 0 rest with
      | some r => skipClose 0 r
      | none => none := skipClose_succ rest.length rest (le_refl _) 0

theorem parseListAux_skipClose {F : Type} (pf : String → Option F) :
    ∀ (toks : List String),
      (∀ e, parseListAux pf toks = .error e →
        e = "Unexpected end of input inside list" ∧ skipClose 0 toks = none) ∧
      (∀ l (rest : List String) (h : rest.length < toks.length),
        parseListAux pf toks = .ok (l, ⟨rest, h⟩) → skipClose 0 toks = some rest) := by
  refine parseListAux.induct pf (fun toks =>
      (∀ e, parseListAux pf toks = .error e →
        e = "Unexpected end of input inside list" ∧ skipClose 0 toks = none) ∧
      (∀ l (rest : List String) (h : rest.length < toks.length),
        parseListAux pf toks = .ok (l, ⟨rest, h⟩) → skipClose 0 toks = some rest))
    ?_ ?_ ?_ ?_ ?_ ?_ ?_
  · constructor
    · intro e he
      rw [parseListAux.eq_def] at he
      simp at he
      exact ⟨he.symm, rfl⟩
    · intro l rest h hok
      rw [parseListAux.eq_def] at hok
      simp at hok
  · intro rest e herr ih
    have hcomp : parseListAux pf ("(" :: rest) =
        (.error e : Except String
          (List (LispExpression F) × { r : List String // r.length < ("(" :: rest).length })) := by
      rw [parseListAux.eq_def]
      simp [herr]
    have hsc : skipClose 0 ("(" :: rest) = none := by
      rw [skipClose_cons_open, skipClose_one, (ih.1 e herr).2]
    constructor
    · intro e2 he2
      rw [hcomp] at he2
      simp at he2
      exact ⟨he2 ▸ (ih.1 e herr).1, hsc⟩
    · intro l rest0 h0 hok
      rw [hcomp] at hok
      simp at hok
  · intro rest l rest2 h2 hok1 e herr2 ih1 ih2
    have hcomp : parseListAux pf ("(" :: rest) =
        (.error e : Except String
          (List (LispExpression F) × { r : List String // r.length < ("(" :: rest).length })) := by
      rw [parseListAux.eq_def]
      simp [hok1, herr2]
    have hsc : skipClose 0 ("(" :: rest) = none := by
      rw [skipClose_cons_open, skipClose_one, ih1.2 l rest2 h2 hok1]
      exact (ih2.1 e herr2).2
    constructor
    · intro e2 he2
      rw [hcomp] at he2
      simp at he2
      exact ⟨he2 ▸ (ih2.1 e herr2).1, hsc⟩
    · intro l0 rest0 h0 hok
      rw [hcomp] at hok
      simp at hok
  · intro rest l rest2 h2 hok1 l3 rest3 h3 hok2 ih1 ih2
    have hcomp : parseListAux pf ("(" :: rest) =
        .ok (.List l :: l3, ⟨rest3, by simp only [List.length_cons]; omega⟩) := by
      rw [parseListAux.eq_def]
      simp [hok1, hok2]
    have hsc : skipClose 0 ("(" :: rest) = some rest3 := by
      rw [skipClose_cons_open, skipClose_one, ih1.2 l rest2 h2 hok1]
      exact ih2.2 l3 rest3 h3 hok2
    constructor
    · intro e2 he2
      rw [hcomp] at he2
      simp at he2
    · intro l0 rest0 h0 hok
      rw [hcomp] at hok
      simp at hok
      rw [hsc, hok.2]
  · intro rest hne
    constructor
    · intro e2 he2
      rw [parseListAux.eq_def] at he2
      simp at he2
    · intro l0 rest0 h0 hok
      rw [parseListAux.eq_def] at hok
      simp at hok
      rw [skipClose.eq_def]
      simp [hok.2]
  · intro token rest h1 h2 e herr ih
    have hcomp : parseListAux pf (token :: rest) =
        (.error e : Except String
          (List (LispExpression F) × { r : List String // r.length < (token :: rest).length })) := by
      rw [parseListAux.eq_def]
      simp [h1, h2, herr]
    constructor
    · intro e2 he2
      rw [hcomp] at he2
      simp at he2
      refine ⟨he2 ▸ (ih.1 e herr).1, ?_⟩
      rw [skipClose_cons_other 0 token rest h1 h2]
      exact (ih.1 e herr).2
    · intro l0 rest0 h0 hok
      rw [hcomp] at hok
      simp at hok
  · intro token rest h1 h2 l rest2 h3 hok ih
    have hcomp : parseListAux pf (token :: rest) =
        .ok (parseAtom pf token :: l, ⟨rest2, by simp only [List.length_cons]; omega⟩) := by
      rw [parseListAux.eq_def]
      simp [h1, h2, hok]
    constructor
    · intro e2 he2
      rw [hcomp] at he2
      simp at he2
    · intro l0 rest0 h0 hok2
      rw [hcomp] at hok2
      simp at hok2
      rw [skipClose_cons_other 0 token rest h1 h2, ih.2 l rest2 h3 hok, hok2.2]
/-- Claim C6: `parse` fails exactly on these token streams: the empty stream
(with the end-of-input message), a stream beginning with the closing token
(with the stray-parenthesis message), and a stream beginning with the opening
token whose matching closing token never arrives before the tokens end (with
the unterminated-list message). -/
theorem claim_C6_parse_failures {F : Type} (pf : String → Option F)
    (toks : List String) (e : String) :
    parse pf toks = .error e ↔
      (toks = [] ∧ e = "Unexpected end of input") ∨
      (∃ rest, toks = ")" :: rest ∧ e = "Unexpected \x27)\x27") ∨
      (∃ rest, toks = "(" :: rest ∧ skipClose 0 rest = none ∧
        e = "Unexpected end of input inside list") := by
  cases toks with
  | nil =>
    show Except.error "Unexpected end of input" = .error e ↔ _
    constructor
    · intro he
      simp at he
      exact Or.inl ⟨rfl, he.symm⟩
    · intro h
      rcases h with ⟨h0, he⟩ | ⟨r, hr, he⟩ | ⟨r, hr, hsc, he⟩
      · rw [he]
      · simp at hr
      · simp at hr
  | cons t rest =>
    by_cases h1 : t = "("
    · subst h1
      cases hp : parseListAux pf rest with
      | error e2 =>
        obtain ⟨hmsg, hsc⟩ := (parseListAux_skipClose pf rest).1 e2 hp
        subst hmsg
        have hparse : parse pf ("(" :: rest) =
            .error "Unexpected end of input inside list" := by
          unfold parse parseTokens parseList
          simp [hp]
        rw [hparse]
        constructor
        · intro he
          simp at he
          exact Or.inr (Or.inr ⟨rest, rfl, hsc, he.symm⟩)
        · intro h
          rcases h with ⟨h0, he⟩ | ⟨r, hr, he⟩ | ⟨r, hr, hsc2, he⟩
          · simp at h0
          · rw [List.cons.injEq] at hr
            exact absurd hr.1 (by decide)
          · rw [he]
      | ok p =>
        obtain ⟨l, rest2, h2⟩ := p
        have hsc := (parseListAux_skipClose pf rest).2 l rest2 h2 hp
        have hparse : parse pf ("(" :: rest) = .ok (.List l) := by
          unfold parse parseTokens parseList
          simp [hp]
        rw [hparse]
        constructor
        · intro he
          simp at he
        · intro h
          rcases h with ⟨h0, he⟩ | ⟨r, hr, he⟩ | ⟨r, hr, hsc2, he⟩
          · simp at h0
          · rw [List.cons.injEq] at hr
            exact absurd hr.1 (by decide)
          · rw [List.cons.injEq] at hr
            rw [hr.2] at hsc
            rw [hsc] at hsc2
            simp at hsc2
    · by_cases h2 : t = ")"
      · subst h2
        have hparse : parse pf (")" :: rest) = .error "Unexpected \x27)\x27" := rfl
        rw [hparse]
        constructor
        · intro he
          simp at he
          exact Or.inr (Or.inl ⟨rest, rfl, he.symm⟩)
        · intro h
          rcases h with ⟨h0, he⟩ | ⟨r, hr, he⟩ | ⟨r, hr, hsc2, he⟩
          · simp at h0
          · rw [he]
          · rw [List.cons.injEq] at hr
            exact absurd hr.1 (by decide)
      · have hparse : parse pf (t :: rest) = .ok (parseAtom pf t) := by
          unfold parse parseTokens
          simp [h1, h2]
        rw [hparse]
        constructor
        · intro he
          simp at he
        · intro h
          rcases h with ⟨h0, he⟩ | ⟨r, hr, he⟩ | ⟨r, hr, hsc2, he⟩
          · simp at h0
          · rw [List.cons.injEq] at hr
            exact absurd hr.1 h2
          · rw [List.cons.injEq] at hr
            exact absurd hr.1 h1

theorem parseList_leaf {F : Type} (pf : String → Option F) (t : String)
    (rest : List String) (h1 : t ≠ "(") (h2 : t ≠ ")") :
    parseList pf (t :: rest) =
      match parseList pf rest with
      | .ok (l, r) => .ok (parseAtom pf t :: l, r)
      | .error e => .error e := by
  unfold parseList
  rw [parseListAux.eq_def]
  cases hp : parseListAux pf rest with
  | error e => simp [h1, h2, hp]
  | ok p =>
    obtain ⟨l, r, hr⟩ := p
    simp [h1, h2, hp]

/-- Claim C8: single-token parsing classifies a non-parenthesis token as:
`"true"` gives `Boolean true` and `"false"` gives `Boolean false` (checked
before the float parse, so never a `Symbol`); any other token the float parser
accepts gives the corresponding `Number`; every remaining token gives a
`Symbol` holding the token text.  The last conjunct shows the identical
classification is applied to leaf tokens inside parenthesized lists. -/
theorem claim_C8_token_classification {F : Type} (pf : String → Option F)
    (t : String) (hp : t ≠ "(") (hq : t ≠ ")") :
    parse pf [t] = .ok (parseAtom pf t) ∧
    (t = "true" → parseAtom pf t = .Boolean true) ∧
    (t = "false" → parseAtom pf t = .Boolean false) ∧
    (∀ v, t ≠ "true" → t ≠ "false" → pf t = some v →
      parseAtom pf t = .Number v) ∧
    (t ≠ "true" → t ≠ "false" → pf t = none → parseAtom pf t = .Symbol t) ∧
    (∀ rest, parseList pf (t :: rest) =
      match parseList pf rest with
      | .ok (l, r) => .ok (parseAtom pf t :: l, r)
      | .error e => .error e) := by
  refine ⟨?_, ?_, ?_, ?_, ?_, fun rest => parseList_leaf pf t rest hp hq⟩
  · unfold parse parseTokens
    simp [hp, hq]
  · intro h
    subst h
    rfl
  · intro h
    subst h
    rfl
  · intro v h1 h2 h3
    unfold parseAtom
    simp [h1, h2, h3]
  · intro h1 h2 h3
    unfold parseAtom
    simp [h1, h2, h3]

theorem claim_C8_witness :
    parse pfTest ["true"] = .ok (.Boolean true) ∧
    parse pfTest ["false"] = .ok (.Boolean false) ∧
    parse pfTest ["5"] = .ok (.Number 5) ∧
    parse pfTest ["foo"] = .ok (.Symbol "foo") := by
  have h1 := claim_C8_token_classification pfTest "true" (by decide) (by decide)
  have h2 := claim_C8_token_classification pfTest "false" (by decide) (by decide)
  have h3 := claim_C8_token_classification pfTest "5" (by decide) (by decide)
  have h4 := claim_C8_token_classification pfTest "foo" (by decide) (by decide)
  refine ⟨?_, ?_, ?_, ?_⟩
  · rw [h1.1, h1.2.1 rfl]
  · rw [h2.1, h2.2.2.1 rfl]
  · rw [h3.1, h3.2.2.2.1 5 (by decide) (by decide) rfl]
  · rw [h4.1, h4.2.2.2.2.1 (by decide) (by decide) rfl]

theorem applyLoop_spec {F : Type} :
    ∀ (params : List String) (args : List (LispExpression F))
      (env newEnv : Environment F), params.length = args.length →
    (∀ vs env1, evalArgs args env = (.ok vs, env1) →
      applyLoop params args env newEnv =
        (.ok (), env1, bindParams newEnv params vs)) ∧
    (∀ e env1, evalArgs args env = (.error e, env1) →
      ∃ ne, applyLoop params args env newEnv = (.error e, env1, ne)) := by
  intro params
  induction params with
  | nil =>
    intro args env newEnv hlen
    cases args with
    | nil =>
      constructor
      · intro vs env1 hv
        simp [evalArgs] at hv
        obtain ⟨h1, h2⟩ := hv
        subst h1
        subst h2
        rfl
      · intro e env1 hv
        simp [evalArgs] at hv
    | cons a args => simp at hlen
  | cons p ps ih =>
    intro args env newEnv hlen
    cases args with
    | nil => simp at hlen
    | cons a args =>
      have hlen2 : ps.length = args.length := by simp at hlen; omega
      cases he : eval a env with
      | mk r env1 =>
        cases r with
        | ok v =>
          have hstep : applyLoop (p :: ps) (a :: args) env newEnv =
              applyLoop ps args env1 (envSet newEnv p v) := by
            rw [applyLoop.eq_def]
            simp [he]
          have hr : evalArgs (a :: args) env =
              match evalArgs args env1 with
              | (.ok vs, env2) => (.ok (v :: vs), env2)
              | (.error e, env2) => (.error e, env2) := by
            simp [evalArgs, he]
          constructor
          · intro vs env2 hv
            rw [hr] at hv
            cases hargs : evalArgs args env1 with
            | mk rr env3 =>
              cases rr with
              | ok vs2 =>
                rw [hargs] at hv
                simp at hv
                obtain ⟨h1, h2⟩ := hv
                subst h1
                subst h2
                rw [hstep, (ih args env1 (envSet newEnv p v) hlen2).1 vs2 env3 hargs]
                rfl
              | error e2 =>
                rw [hargs] at hv
                simp at hv
          · intro e env2 hv
            rw [hr] at hv
            cases hargs : evalArgs args env1 with
            | mk rr env3 =>
              cases rr with
              | ok vs2 =>
                rw [hargs] at hv
                simp at hv
              | error e2 =>
                rw [hargs] at hv
                simp at hv
                obtain ⟨h1, h2⟩ := hv
                subst h1
                subst h2
                obtain ⟨ne, hne⟩ :=
                  (ih args env1 (envSet newEnv p v) hlen2).2 _ _ hargs
                exact ⟨ne, by rw [hstep, hne]⟩
        | error e2 =>
          have hr : evalArgs (a :: args) env = (.error e2, env1) := by
            simp [evalArgs, he]
          constructor
          · intro vs env2 hv
            rw [hr] at hv
            simp at hv
          · intro e env2 hv
            rw [hr] at hv
            simp at hv
            obtain ⟨h1, h2⟩ := hv
            subst h1
            subst h2
            refine ⟨newEnv, ?_⟩
            rw [applyLoop.eq_def]
            simp [he]

/-- Claim C5: `apply` fails with `NotCallable` on every non-closure; on a
closure it fails with `ArityMismatch` when the argument count differs from the
parameter count; otherwise it evaluates the arguments in the caller
environment (threaded left to right), binds them positionally on a copy of
the captured snapshot, evaluates the body in that new environment and returns
its result, discarding the new environment (only the caller environment as
left by the argument evaluations survives). -/
theorem claim_C5_apply_contract {F : Type} :
    (∀ (func : LispValue F) (args : List (LispExpression F))
      (env : Environment F),
      (∀ ps b c, func ≠ .Lambda ps b c) →
      apply func args env = (.error "Invalid function application", env)) ∧
    (∀ (params : List String) (body : LispExpression F)
      (closure : Environment F) (args : List (LispExpression F))
      (env : Environment F),
      args.length ≠ params.length →
      apply (.Lambda params body closure) args env =
        (.error "Incorrect number of arguments", env)) ∧
    (∀ (params : List String) (body : LispExpression F)
      (closure : Environment F) (args : List (LispExpression F))
      (env : Environment F),
      args.length = params.length →
      apply (.Lambda params body closure) args env =
        match evalArgs args env with
        | (.ok vs, env1) => ((eval body (bindParams closure params vs)).1, env1)
        | (.error e, env1) => (.error e, env1)) := by
  refine ⟨?_, ?_, ?_⟩
  · intro func args env hn
    cases func with
    | Lambda ps b c => exact absurd rfl (hn ps b c)
    | Number num => rfl
    | Boolean b => rfl
  · intro params body closure args env hl
    unfold apply
    simp [hl]
  · intro params body closure args env hl
    unfold apply
    simp [hl]
    cases hargs : evalArgs args env with
    | mk r env1 =>
      cases r with
      | ok vs =>
        rw [(applyLoop_spec params args env closure hl.symm).1 vs env1 hargs]
      | error e =>
        obtain ⟨ne, hne⟩ :=
          (applyLoop_spec params args env closure hl.symm).2 e env1 hargs
        rw [hne]

theorem claim_C5_witness :
    apply (.Number (3 : Int)) [] [] = (.error "Invalid function application", []) ∧
    apply (.Lambda ["x"] (.Symbol "x") []) [] ([] : Environment Int) =
      (.error "Incorrect number of arguments", []) ∧
    apply (.Lambda ["x"] (.Symbol "x") []) [.Number 5] ([] : Environment Int) =
      (.ok (.Number 5), []) := by
  obtain ⟨h1, h2, h3⟩ := claim_C5_apply_contract (F := Int)
  refine ⟨h1 (.Number 3) [] [] (fun ps b c => by simp), ?_, ?_⟩
  · exact h2 ["x"] (.Symbol "x") [] [] [] (by decide)
  · rw [h3 ["x"] (.Symbol "x") [] [.Number 5] [] (by decide)]
    rfl

theorem collectParams_error_msg {F : Type} :
    ∀ (params : List (LispExpression F)) (e : String),
    collectParams params = .error e → e = "Invalid parameter name in lambda" := by
  intro params
  induction params with
  | nil => intro e h; simp [collectParams] at h
  | cons p ps ih =>
    intro e h
    cases p with
    | Symbol s =>
      simp only [collectParams] at h
      cases hc : collectParams ps with
      | ok names => rw [hc] at h; simp at h
      | error e2 =>
        rw [hc] at h
        simp at h
        subst h
        exact ih e2 hc
    | Number num => simp [collectParams] at h; exact h.symm
    | Boolean b => simp [collectParams] at h; exact h.symm
    | List l => simp [collectParams] at h; exact h.symm
    | Lambda a b => simp [collectParams] at h; exact h.symm

theorem undefined_ne_lambda_msg (sym : String) :
    "Undefined symbol: " ++ sym ≠ "Lambda cannot be evaluated directly" := by
  intro h
  have h2 := congrArg String.data h
  simp [String.data_append] at h2

theorem eval_not_lambda_msg {F : Type} (e : LispExpression F) (env : Environment F) :
    noLambda e = true → ∀ (msg : String) (env2 : Environment F),
      eval e env = (.error msg, env2) →
      msg ≠ "Lambda cannot be evaluated directly" := by
  induction e, env using eval.induct with
  | case1 num env => intro hnl msg env2 h; simp [eval] at h
  | case2 b env => intro hnl msg env2 h; simp [eval] at h
  | case3 sym env value hv => intro hnl msg env2 h; simp [eval, hv] at h
  | case4 sym env hv =>
    intro hnl msg env2 h
    simp [eval, hv] at h
    obtain ⟨h1, h2⟩ := h
    subst h1
    exact undefined_ne_lambda_msg sym
  | case5 env => intro hnl msg env2 h; simp [eval] at h; rw [← h.1]; decide
  | case6 env valueExpr name value env1 hval =>
    intro hnl msg env2 h
    simp [eval, hval] at h
  | case7 env valueExpr name e1 env1 hval ih =>
    intro hnl msg env2 h
    simp [noLambda] at hnl
    simp [eval, hval] at h
    obtain ⟨h1, h2⟩ := h
    subst h1
    exact ih hnl e1 env1 hval
  | case8 env nameExpr valueExpr hns =>
    intro hnl msg env2 h
    cases nameExpr with
    | Symbol s => exact absurd rfl (hns s)
    | Number num => simp [eval] at h; rw [← h.1]; decide
    | Boolean b => simp [eval] at h; rw [← h.1]; decide
    | List l => simp [eval] at h; rw [← h.1]; decide
    | Lambda a b => simp [eval] at h; rw [← h.1]; decide
  | case9 tail env hts =>
    intro hnl msg env2 h
    rcases tail with _ | ⟨a, _ | ⟨b, _ | ⟨c, t⟩⟩⟩
    · simp [eval] at h; rw [← h.1]; decide
    · simp [eval] at h; rw [← h.1]; decide
    · exact absurd rfl (hts a b)
    · simp [eval] at h; rw [← h.1]; decide
  | case10 env bodyExpr params names hcp hne =>
    intro hnl msg env2 h
    rw [eval_lambda_ok params names bodyExpr env hcp] at h
    simp at h
  | case11 env bodyExpr params e1 hcp hne =>
    intro hnl msg env2 h
    rw [eval.eq_def] at h
    simp [hcp] at h
    obtain ⟨h1, h2⟩ := h
    subst h1
    rw [collectParams_error_msg params e1 hcp]
    decide
  | case12 env paramsExpr bodyExpr hnp hne =>
    intro hnl msg env2 h
    cases paramsExpr with
    | List l => exact absurd rfl (hnp l)
    | Number num => simp [eval] at h; rw [← h.1]; decide
    | Boolean b => simp [eval] at h; rw [← h.1]; decide
    | Symbol s => rw [eval.eq_def] at h; simp at h; rw [← h.1]; decide
    | Lambda a b => simp [eval] at h; rw [← h.1]; decide
  | case13 tail env hts hne =>
    intro hnl msg env2 h
    rcases tail with _ | ⟨a, _ | ⟨b, _ | ⟨c, t⟩⟩⟩
    · rw [eval.eq_def] at h; simp at h; rw [← h.1]; decide
    · rw [eval.eq_def] at h; simp at h; rw [← h.1]; decide
    · exact absurd rfl (hts a b)
    · rw [eval.eq_def] at h; simp at h; rw [← h.1]; decide
  | case14 tail env name hnd hnli =>
    intro hnl msg env2 h
    rw [eval.eq_def] at h
    simp [hnd, hnli] at h
    rw [← h.1]
    decide
  | case15 head tail env hns =>
    intro hnl msg env2 h
    cases head with
    | Symbol s => exact absurd rfl (hns s)
    | Number num => simp [eval] at h; rw [← h.1]; decide
    | Boolean b => simp [eval] at h; rw [← h.1]; decide
    | List l => simp [eval] at h; rw [← h.1]; decide
    | Lambda a b => simp [eval] at h; rw [← h.1]; decide
  | case16 a b env =>
    intro hnl msg env2 h
    simp [noLambda] at hnl
theorem parseAtom_noLambda {F : Type} (pf : String → Option F) (t : String) :
    noLambda (parseAtom pf t) = true := by
  unfold parseAtom
  by_cases h1 : t = "true"
  · simp [h1, noLambda]
  · by_cases h2 : t = "false"
    · simp [h1, h2, noLambda]
    · simp [h1, h2]
      cases hp : pf t with
      | some v => simp [noLambda]
      | none => simp [noLambda]

theorem noLambda_list_iff {F : Type} (l : List (LispExpression F)) :
    noLambda (.List l) = true ↔ ∀ e ∈ l, noLambda e = true := by
  induction l with
  | nil => simp [noLambda]
  | cons e es ih => simp [noLambda, Bool.and_eq_true, ih]

theorem parseListAux_noLambda {F : Type} (pf : String → Option F) :
    ∀ (toks : List String),
      ∀ l (rest : List String) (h : rest.length < toks.length),
        parseListAux pf toks = .ok (l, ⟨rest, h⟩) → ∀ e ∈ l, noLambda e = true := by
  refine parseListAux.induct pf (fun toks =>
      ∀ l (rest : List String) (h : rest.length < toks.length),
        parseListAux pf toks = .ok (l, ⟨rest, h⟩) → ∀ e ∈ l, noLambda e = true)
    ?_ ?_ ?_ ?_ ?_ ?_ ?_
  · intro l rest h hok
    rw [parseListAux.eq_def] at hok
    simp at hok
  · intro rest e herr ih l rest0 h0 hok
    rw [parseListAux.eq_def] at hok
    simp [herr] at hok
  · intro rest l rest2 h2 hok1 e herr ih1 ih2 l0 rest0 h0 hok
    rw [parseListAux.eq_def] at hok
    simp [hok1, herr] at hok
  · intro rest l rest2 h2 hok1 l3 rest3 h3 hok2 ih1 ih2 l0 rest0 h0 hok
    rw [parseListAux.eq_def] at hok
    simp [hok1, hok2] at hok
    obtain ⟨ha, hb⟩ := hok
    subst ha
    intro e he
    rcases List.mem_cons.mp he with h4 | h4
    · subst h4
      exact (noLambda_list_iff l).mpr (ih1 l rest2 h2 hok1)
    · exact ih2 l3 rest3 h3 hok2 e h4
  · intro rest hne l0 rest0 h0 hok
    rw [parseListAux.eq_def] at hok
    simp at hok
    obtain ⟨ha, hb⟩ := hok
    subst ha
    intro e he
    simp at he
  · intro token rest h1 h2 e herr ih l0 rest0 h0 hok
    rw [parseListAux.eq_def] at hok
    simp [h1, h2, herr] at hok
  · intro token rest h1 h2 l rest2 h3 hok1 ih l0 rest0 h0 hok
    rw [parseListAux.eq_def] at hok
    simp [h1, h2, hok1] at hok
    obtain ⟨ha, hb⟩ := hok
    subst ha
    intro e he
    rcases List.mem_cons.mp he with h4 | h4
    · subst h4
      exact parseAtom_noLambda pf token
    · exact ih l rest2 h3 hok1 e h4

/-- Claim C10: a successful parse never produces the `Lambda` expression
variant at any depth, and evaluating an expression free of that variant never
fails with the `LambdaNotCallable` message, so that error branch is
unreachable from parser-produced expressions. -/
theorem claim_C10_no_lambda_literal {F : Type} (pf : String → Option F) :
    (∀ (toks : List String) (e : LispExpression F),
      parse pf toks = .ok e → noLambda e = true) ∧
    (∀ (e : LispExpression F) (env : Environment F), noLambda e = true →
      ∀ (msg : String) (env2 : Environment F),
        eval e env = (.error msg, env2) →
        msg ≠ "Lambda cannot be evaluated directly") := by
  constructor
  · intro toks e hp
    cases toks with
    | nil => simp [parse, parseTokens] at hp
    | cons t rest =>
      by_cases h1 : t = "("
      · subst h1
        unfold parse parseTokens parseList at hp
        simp at hp
        cases hpl : parseListAux pf rest with
        | error e2 =>
          rw [hpl] at hp
          simp at hp
        | ok p =>
          obtain ⟨l, r, hr⟩ := p
          rw [hpl] at hp
          simp at hp
          rw [← hp]
          exact (noLambda_list_iff l).mpr (parseListAux_noLambda pf rest l r hr hpl)
      · by_cases h2 : t = ")"
        · subst h2
          simp [parse, parseTokens] at hp
        · unfold parse parseTokens at hp
          simp [h1, h2] at hp
          rw [← hp]
          exact parseAtom_noLambda pf t
  · intro e env hnl msg env2 h
    exact eval_not_lambda_msg e env hnl msg env2 h

theorem claim_C10_witness :
    noLambda (.List [.Symbol "define", .Symbol "x", .Number (5 : Int)]) = true ∧
    ("Undefined symbol: nope" : String) ≠ "Lambda cannot be evaluated directly" := by
  have h := claim_C10_no_lambda_literal pfTest
  constructor
  · exact h.1 ["(", "define", "x", "5", ")"] _
      (by simp [parse, parseTokens, parseList, parseListAux, parseAtom, pfTest])
  · exact h.2 (.Symbol "nope") [] (by simp [noLambda]) "Undefined symbol: nope" [] (by rfl)
